import Mathlib

/-!
Shallow embedding of the `DocumentStorage` contract
(src/solidity/document_issue.sol) and proofs of the specified properties.

Addresses, subject identifiers and 256-bit hashes are modelled as `Nat`
(the claims never depend on the 2^160 / 2^256 bound); IPFS CIDs as `String`.
Solidity mappings (default value 0 / empty) are modelled as total functions.
A transition either returns the updated state together with the list of
events it emitted, or an error; a Solidity `require` failure reverts the
whole transaction, so an error carries no state (the caller keeps the
pre-call state) and no events.
-/

abbrev Address := Nat
abbrev Hash := Nat
abbrev Subject := Nat

/-- `struct Document { bytes32 sha256Hash; string ipfsCID; }` -/
structure Document where
  sha256Hash : Hash
  ipfsCID : String
deriving Repr, DecidableEq, Inhabited

/-- The contract's storage: `owners` (an `address[3]`), the two
(index-map, list) pairs for issuers and revokers, the per-subject
document collections, plus the `Initializable` initialized flag and the
`ReentrancyGuard` busy flag (both inherited from the OpenZeppelin base
contracts, modelled from the spec: set on entry / cleared on exit,
one-time initialization). -/
structure CState where
  initialized : Bool
  owner0 : Address
  owner1 : Address
  owner2 : Address
  issuerIndex : Address → Nat
  issuerList : List Address
  revokerIndex : Address → Nat
  revokerList : List Address
  userDocuments : Subject → List Document
  busy : Bool

/-- The contract's events. -/
inductive Event where
  | DocumentStored (userId : Subject) (sha256Hash : Hash) (ipfsCID : String)
  | DocumentRevoked (userId : Subject) (sha256Hash : Hash) (ipfsCID : String)
  | IssuerAdded (issuer : Address)
  | IssuerRemoved (issuer : Address)
  | RevokerAdded (revoker : Address)
  | RevokerRemoved (revoker : Address)
deriving Repr, DecidableEq

/-- Error kinds, named as in the spec; each corresponds to one `require`
string in the source (`Unauthorized` ↔ 'Not authorized to store' /
'Not authorized to revoke', `NotOwner` ↔ 'Not an owner',
`AlreadyAuthorized` ↔ 'User already authorized', `NotAuthorized` ↔
'User is not authorized', `DuplicateDocument` ↔ 'Document already stored',
`AlreadyInitialized` / `IndirectInitializationRejected` ↔ the two
initialization guards, `ReentrancyError` ↔ the reentrancy guard). -/
inductive CError where
  | Unauthorized
  | NotOwner
  | AlreadyAuthorized
  | NotAuthorized
  | DuplicateDocument
  | ReentrancyError
  | AlreadyInitialized
  | IndirectInitializationRejected
deriving Repr, DecidableEq

abbrev TxResult := Except CError (CState × List Event)

/-- The `onlyOwners` modifier test:
`msg.sender == owners[0] || msg.sender == owners[1] || msg.sender == owners[2]`. -/
def isOwner (s : CState) (a : Address) : Bool :=
  a == s.owner0 || a == s.owner1 || a == s.owner2

/-- The issuer-membership test used by `storeDocument`:
`issuerIndex[msg.sender] > 0`. -/
def isIssuer (s : CState) (a : Address) : Bool :=
  decide (s.issuerIndex a > 0)

/-- The revoker-membership test used by `revokeDocument`:
`revokerIndex[msg.sender] > 0`. -/
def isRevoker (s : CState) (a : Address) : Bool :=
  decide (s.revokerIndex a > 0)

/-- Modelled from the spec: the `nonReentrant` modifier of OpenZeppelin's
`ReentrancyGuard` (imported by the contract, source not in the repo). The
global busy flag is set on entry and cleared on every exit path; a nested
call while the flag is set is rejected with `ReentrancyError`. A revert in
the body rolls the whole transaction (including the flag) back, which in
this embedding is the `.error` case carrying no state. -/
def nonReentrant (body : CState → TxResult) (s : CState) : TxResult :=
  if s.busy then .error .ReentrancyError
  else
    match body { s with busy := true } with
    | .error e => .error e
    | .ok (s', evs) => .ok ({ s' with busy := false }, evs)

/-- `initialize(address _owner2, address _owner3)`. The `initializer`
modifier (OpenZeppelin `Initializable`, modelled from the spec: fails with
`AlreadyInitialized` on a second call) runs first; the body then requires
`msg.sender == tx.origin` (the call comes directly from an external actor,
modelled by the `direct` flag) and sets the three owner slots. -/
def initializeContract (s : CState) (sender : Address) (direct : Bool)
    (owner2 owner3 : Address) : TxResult :=
  if s.initialized then .error .AlreadyInitialized
  else if direct then
    .ok ({ s with initialized := true,
                  owner0 := sender, owner1 := owner2, owner2 := owner3 }, [])
  else .error .IndirectInitializationRejected

/-- `addAuthorizedIssuer(address issuer)`. -/
def addAuthorizedIssuer (s : CState) (sender issuer : Address) : TxResult :=
  if isOwner s sender then
    if s.issuerIndex issuer == 0 &&
        (s.issuerList.length == 0 || s.issuerList.getD 0 0 != issuer) then
      .ok ({ s with
              issuerIndex := fun a =>
                if a = issuer then s.issuerList.length + 1 else s.issuerIndex a,
              issuerList := s.issuerList ++ [issuer] },
           [.IssuerAdded issuer])
    else .error .AlreadyAuthorized
  else .error .NotOwner

/-- `removeAuthorizedIssuer(address issuer)`. In the source, when the
removed slot is not the last one the last element is first copied into it
and that element's index entry updated, then `pop()` shortens the list and
`delete issuerIndex[issuer]` clears the removed address's entry (so the
`delete` is applied after the moved element's update, which the nested
update function reproduces). -/
def removeAuthorizedIssuer (s : CState) (sender issuer : Address) : TxResult :=
  if isOwner s sender then
    if s.issuerIndex issuer > 0 then
      let index := s.issuerIndex issuer - 1
      let lastIndex := s.issuerList.length - 1
      if index ≠ lastIndex then
        let moved := s.issuerList.getD lastIndex 0
        .ok ({ s with
                issuerList := (s.issuerList.set index moved).dropLast,
                issuerIndex := fun a =>
                  if a = issuer then 0
                  else if a = moved then index + 1
                  else s.issuerIndex a },
             [.IssuerRemoved issuer])
      else
        .ok ({ s with
                issuerList := s.issuerList.dropLast,
                issuerIndex := fun a =>
                  if a = issuer then 0 else s.issuerIndex a },
             [.IssuerRemoved issuer])
    else .error .NotAuthorized
  else .error .NotOwner

/-- `addAuthorizedRevoker(address revoker)`. -/
def addAuthorizedRevoker (s : CState) (sender revoker : Address) : TxResult :=
  if isOwner s sender then
    if s.revokerIndex revoker == 0 &&
        (s.revokerList.length == 0 || s.revokerList.getD 0 0 != revoker) then
      .ok ({ s with
              revokerIndex := fun a =>
                if a = revoker then s.revokerList.length + 1 else s.revokerIndex a,
              revokerList := s.revokerList ++ [revoker] },
           [.RevokerAdded revoker])
    else .error .AlreadyAuthorized
  else .error .NotOwner

/-- `removeAuthorizedRevoker(address revoker)`. -/
def removeAuthorizedRevoker (s : CState) (sender revoker : Address) : TxResult :=
  if isOwner s sender then
    if s.revokerIndex revoker > 0 then
      let index := s.revokerIndex revoker - 1
      let lastIndex := s.revokerList.length - 1
      if index ≠ lastIndex then
        let moved := s.revokerList.getD lastIndex 0
        .ok ({ s with
                revokerList := (s.revokerList.set index moved).dropLast,
                revokerIndex := fun a =>
                  if a = revoker then 0
                  else if a = moved then index + 1
                  else s.revokerIndex a },
             [.RevokerRemoved revoker])
      else
        .ok ({ s with
                revokerList := s.revokerList.dropLast,
                revokerIndex := fun a =>
                  if a = revoker then 0 else s.revokerIndex a },
             [.RevokerRemoved revoker])
    else .error .NotAuthorized
  else .error .NotOwner

/-- `getAllAuthorizedIssuers()`. -/
def getAllAuthorizedIssuers (s : CState) : List Address := s.issuerList

/-- `getAllAuthorizedRevokers()`. -/
def getAllAuthorizedRevokers (s : CState) : List Address := s.revokerList

/-- The body of `storeDocument` (inside the `nonReentrant` guard):
authorization check, linear duplicate scan, append, event. -/
def storeDocumentBody (sender : Address) (userId : Subject) (sha256Hash : Hash)
    (ipfsCID : String) (s : CState) : TxResult :=
  if s.issuerIndex sender > 0 || sender == s.owner0 || sender == s.owner1
      || sender == s.owner2 then
    let docs := s.userDocuments userId
    if docs.any (fun d => d.sha256Hash == sha256Hash) then
      .error .DuplicateDocument
    else
      .ok ({ s with userDocuments := fun u =>
                if u = userId then s.userDocuments userId ++ [⟨sha256Hash, ipfsCID⟩]
                else s.userDocuments u },
           [.DocumentStored userId sha256Hash ipfsCID])
  else .error .Unauthorized

/-- `storeDocument(uint256 userId, bytes32 sha256Hash, string memory ipfsCID)`,
guarded by `nonReentrant`. -/
def storeDocument (s : CState) (sender : Address) (userId : Subject)
    (sha256Hash : Hash) (ipfsCID : String) : TxResult :=
  nonReentrant (storeDocumentBody sender userId sha256Hash ipfsCID) s

/-- The swap-remove on a collection: `docs[i] = docs[docs.length - 1]; docs.pop()`. -/
def swapRemove (l : List Document) (i : Nat) : List Document :=
  (l.set i (l.getD (l.length - 1) default)).dropLast

/-- The body of `revokeDocument` (inside the `nonReentrant` guard):
authorization check, then a linear scan that, at the first record whose
`sha256Hash` matches, emits `DocumentRevoked` with that record's fields,
swap-removes it and breaks; if no record matches the call is a no-op. -/
def revokeDocumentBody (sender : Address) (userId : Subject) (sha256Hash : Hash)
    (s : CState) : TxResult :=
  if s.revokerIndex sender > 0 || sender == s.owner0 || sender == s.owner1
      || sender == s.owner2 then
    let docs := s.userDocuments userId
    match docs.findIdx? (fun d => d.sha256Hash == sha256Hash) with
    | none => .ok (s, [])
    | some i =>
      let d := docs.getD i default
      .ok ({ s with userDocuments := fun u =>
                if u = userId then swapRemove (s.userDocuments userId) i
                else s.userDocuments u },
           [.DocumentRevoked userId d.sha256Hash d.ipfsCID])
  else .error .Unauthorized

/-- `revokeDocument(uint256 userId, bytes32 sha256Hash)`, guarded by
`nonReentrant`. -/
def revokeDocument (s : CState) (sender : Address) (userId : Subject)
    (sha256Hash : Hash) : TxResult :=
  nonReentrant (revokeDocumentBody sender userId sha256Hash) s

/-- `getDocuments(uint256 userId)`: the parallel arrays of hashes and CIDs. -/
def getDocuments (s : CState) (userId : Subject) : List Hash × List String :=
  ((s.userDocuments userId).map Document.sha256Hash,
   (s.userDocuments userId).map Document.ipfsCID)

/-- `getDocumentCount(uint256 userId)`. -/
def getDocumentCount (s : CState) (userId : Subject) : Nat :=
  (s.userDocuments userId).length

/-- The state of the freshly deployed contract: all storage zeroed. -/
def initialState : CState where
  initialized := false
  owner0 := 0
  owner1 := 0
  owner2 := 0
  issuerIndex := fun _ => 0
  issuerList := []
  revokerIndex := fun _ => 0
  revokerList := []
  userDocuments := fun _ => []
  busy := false

/-- One successful external transition of the contract (failed calls revert
and leave the state unchanged, so they do not move between states). -/
inductive Step : CState → CState → Prop where
  | init (s s' : CState) (sender : Address) (direct : Bool)
      (o2 o3 : Address) (evs : List Event)
      (h : initializeContract s sender direct o2 o3 = .ok (s', evs)) : Step s s'
  | addIssuer (s s' : CState) (sender issuer : Address) (evs : List Event)
      (h : addAuthorizedIssuer s sender issuer = .ok (s', evs)) : Step s s'
  | removeIssuer (s s' : CState) (sender issuer : Address) (evs : List Event)
      (h : removeAuthorizedIssuer s sender issuer = .ok (s', evs)) : Step s s'
  | addRevoker (s s' : CState) (sender revoker : Address) (evs : List Event)
      (h : addAuthorizedRevoker s sender revoker = .ok (s', evs)) : Step s s'
  | removeRevoker (s s' : CState) (sender revoker : Address) (evs : List Event)
      (h : removeAuthorizedRevoker s sender revoker = .ok (s', evs)) : Step s s'
  | store (s s' : CState) (sender : Address) (userId : Subject) (sha256Hash : Hash)
      (ipfsCID : String) (evs : List Event)
      (h : storeDocument s sender userId sha256Hash ipfsCID = .ok (s', evs)) : Step s s'
  | revoke (s s' : CState) (sender : Address) (userId : Subject) (sha256Hash : Hash)
      (evs : List Event)
      (h : revokeDocument s sender userId sha256Hash = .ok (s', evs)) : Step s s'

/-- A state is reachable when a sequence of successful transitions leads to
it from the freshly deployed contract. -/
def Reachable (s : CState) : Prop :=
  Relation.ReflTransGen Step initialState s

/-! ## Inversion lemmas for the transitions -/

theorem CState.ext2 (s t : CState)
    (h1 : s.initialized = t.initialized) (h2 : s.owner0 = t.owner0)
    (h3 : s.owner1 = t.owner1) (h4 : s.owner2 = t.owner2)
    (h5 : s.issuerIndex = t.issuerIndex) (h6 : s.issuerList = t.issuerList)
    (h7 : s.revokerIndex = t.revokerIndex) (h8 : s.revokerList = t.revokerList)
    (h9 : s.userDocuments = t.userDocuments) (h10 : s.busy = t.busy) : s = t := by
  cases s; cases t; simp_all

theorem storeDocument_ok_iff (s s' : CState) (a : Address) (u : Subject)
    (h : Hash) (r : String) (ev : List Event) :
    storeDocument s a u h r = .ok (s', ev) ↔
      s.busy = false ∧
      (s.issuerIndex a > 0 ∨ a = s.owner0 ∨ a = s.owner1 ∨ a = s.owner2) ∧
      (∀ d ∈ s.userDocuments u, d.sha256Hash ≠ h) ∧
      s' = { s with userDocuments := fun v =>
              if v = u then s.userDocuments u ++ [⟨h, r⟩] else s.userDocuments v } ∧
      ev = [.DocumentStored u h r] := by
  rcases s with ⟨ini, o0, o1, o2, iIdx, iList, rIdx, rList, docs, busy⟩
  simp only [storeDocument, nonReentrant, storeDocumentBody]
  cases busy
  · by_cases hauth : (decide (iIdx a > 0) || a == o0 || a == o1 || a == o2) = true
    · rw [if_neg (by simp), if_pos hauth]
      simp only [Bool.or_eq_true, decide_eq_true_eq, beq_iff_eq] at hauth
      cases hdup : (docs u).any fun d => d.sha256Hash == h
      · simp only [Bool.false_eq_true, if_false]
        simp only [List.any_eq_false, beq_iff_eq] at hdup
        simp only [Except.ok.injEq, Prod.mk.injEq, CState.mk.injEq]
        constructor
        · rintro ⟨hs, hev⟩
          exact ⟨by trivial, by tauto, hdup, by simp_all, hev.symm⟩
        · rintro ⟨-, -, -, hs, hev⟩
          subst hev
          refine ⟨?_, rfl⟩
          simp [hs]
      · simp only [if_true]
        simp only [List.any_eq_true, beq_iff_eq] at hdup
        constructor
        · intro hcontra; exact absurd hcontra (by simp)
        · rintro ⟨-, -, hnone, -, -⟩
          obtain ⟨d, hd, he⟩ := hdup
          exact absurd he (hnone d hd)
    · rw [if_neg (by simp), if_neg hauth]
      simp only [Bool.or_eq_true, decide_eq_true_eq, beq_iff_eq] at hauth
      constructor
      · intro hcontra; exact absurd hcontra (by simp)
      · rintro ⟨-, ha, -, -, -⟩
        exact absurd (by tauto) hauth
  · rw [if_pos rfl]
    simp

theorem revokeDocument_ok_iff (s s' : CState) (a : Address) (u : Subject)
    (h : Hash) (ev : List Event) :
    revokeDocument s a u h = .ok (s', ev) ↔
      s.busy = false ∧
      (s.revokerIndex a > 0 ∨ a = s.owner0 ∨ a = s.owner1 ∨ a = s.owner2) ∧
      (((s.userDocuments u).findIdx? (fun d => d.sha256Hash == h) = none ∧
          s' = s ∧ ev = []) ∨
       (∃ i, (s.userDocuments u).findIdx? (fun d => d.sha256Hash == h) = some i ∧
          s' = { s with userDocuments := fun v =>
                  if v = u then swapRemove (s.userDocuments u) i
                  else s.userDocuments v } ∧
          ev = [.DocumentRevoked u ((s.userDocuments u).getD i default).sha256Hash
                  ((s.userDocuments u).getD i default).ipfsCID])) := by
  rcases s with ⟨ini, o0, o1, o2, iIdx, iList, rIdx, rList, docs, busy⟩
  simp only [revokeDocument, nonReentrant, revokeDocumentBody]
  cases busy
  · by_cases hauth : (decide (rIdx a > 0) || a == o0 || a == o1 || a == o2) = true
    · rw [if_neg (by simp), if_pos hauth]
      simp only [Bool.or_eq_true, decide_eq_true_eq, beq_iff_eq] at hauth
      cases hfind : (docs u).findIdx? (fun d => d.sha256Hash == h) with
      | none =>
        simp only [hfind]
        simp only [Except.ok.injEq, Prod.mk.injEq, CState.mk.injEq]
        constructor
        · rintro ⟨hs, hev⟩
          exact ⟨by trivial, by tauto, Or.inl ⟨by trivial, by simp_all, hev.symm⟩⟩
        · rintro ⟨-, -, hcase⟩
          rcases hcase with ⟨-, hs, hev⟩ | ⟨i, hi, -, -⟩
          · subst hev; simp [hs]
          · exact absurd hi (by simp [hfind])
      | some i =>
        simp only [hfind]
        simp only [Except.ok.injEq, Prod.mk.injEq, CState.mk.injEq]
        constructor
        · rintro ⟨hs, hev⟩
          refine ⟨by trivial, by tauto, Or.inr ⟨i, rfl, by simp_all, hev.symm⟩⟩
        · rintro ⟨-, -, hcase⟩
          rcases hcase with ⟨hnone, -, -⟩ | ⟨j, hj, hs, hev⟩
          · exact absurd hnone (by simp [hfind])
          · cases hj
            subst hev
            refine ⟨?_, rfl⟩
            simp [hs]
    · rw [if_neg (by simp), if_neg hauth]
      simp only [Bool.or_eq_true, decide_eq_true_eq, beq_iff_eq] at hauth
      constructor
      · intro hcontra; exact absurd hcontra (by simp)
      · rintro ⟨-, ha, -⟩
        exact absurd (by tauto) hauth
  · rw [if_pos rfl]
    simp

theorem addAuthorizedIssuer_ok_iff (s s' : CState) (a b : Address) (ev : List Event) :
    addAuthorizedIssuer s a b = .ok (s', ev) ↔
      isOwner s a = true ∧ s.issuerIndex b = 0 ∧
      (s.issuerList.length = 0 ∨ s.issuerList.getD 0 0 ≠ b) ∧
      s' = { s with
              issuerIndex := fun x =>
                if x = b then s.issuerList.length + 1 else s.issuerIndex x,
              issuerList := s.issuerList ++ [b] } ∧
      ev = [.IssuerAdded b] := by
  simp only [addAuthorizedIssuer]
  by_cases hown : isOwner s a = true
  · rw [if_pos hown]
    by_cases hpre : (s.issuerIndex b == 0 &&
        (s.issuerList.length == 0 || s.issuerList.getD 0 0 != b)) = true
    · rw [if_pos hpre]
      simp only [Bool.and_eq_true, Bool.or_eq_true, beq_iff_eq, bne_iff_ne,
        Nat.beq_eq_true_eq] at hpre
      simp only [Except.ok.injEq, Prod.mk.injEq]
      constructor
      · rintro ⟨hs, hev⟩
        exact ⟨hown, hpre.1, hpre.2, hs.symm, hev.symm⟩
      · rintro ⟨-, -, -, hs, hev⟩
        exact ⟨hs.symm, hev.symm⟩
    · rw [if_neg hpre]
      simp only [Bool.and_eq_true, Bool.or_eq_true, beq_iff_eq, bne_iff_ne,
        Nat.beq_eq_true_eq, not_and_or, not_or] at hpre
      constructor
      · intro hcontra; exact absurd hcontra (by simp)
      · rintro ⟨-, h1, h2, -, -⟩
        rcases hpre with hp | hp
        · exact (hp h1).elim
        · rcases h2 with h2 | h2
          · exact (hp.1 h2).elim
          · exact absurd (by simpa using h2) (by simpa using hp.2)
  · rw [if_neg hown]
    constructor
    · intro hcontra; exact absurd hcontra (by simp)
    · rintro ⟨ho, -, -, -, -⟩
      exact (hown ho).elim

theorem removeAuthorizedIssuer_ok_iff (s s' : CState) (a b : Address) (ev : List Event) :
    removeAuthorizedIssuer s a b = .ok (s', ev) ↔
      isOwner s a = true ∧ s.issuerIndex b > 0 ∧ ev = [.IssuerRemoved b] ∧
      ((s.issuerIndex b - 1 ≠ s.issuerList.length - 1 ∧
        s' = { s with
                issuerList := (s.issuerList.set (s.issuerIndex b - 1)
                  (s.issuerList.getD (s.issuerList.length - 1) 0)).dropLast,
                issuerIndex := fun x =>
                  if x = b then 0
                  else if x = s.issuerList.getD (s.issuerList.length - 1) 0 then
                    s.issuerIndex b - 1 + 1
                  else s.issuerIndex x }) ∨
       (s.issuerIndex b - 1 = s.issuerList.length - 1 ∧
        s' = { s with
                issuerList := s.issuerList.dropLast,
                issuerIndex := fun x =>
                  if x = b then 0 else s.issuerIndex x })) := by
  simp only [removeAuthorizedIssuer]
  by_cases hown : isOwner s a = true
  · rw [if_pos hown]
    by_cases hmem : s.issuerIndex b > 0
    · rw [if_pos hmem]
      by_cases hlast : s.issuerIndex b - 1 ≠ s.issuerList.length - 1
      · rw [if_pos hlast]
        simp only [Except.ok.injEq, Prod.mk.injEq]
        constructor
        · rintro ⟨hs, hev⟩
          exact ⟨hown, hmem, hev.symm, Or.inl ⟨hlast, hs.symm⟩⟩
        · rintro ⟨-, -, hev, hcase⟩
          rcases hcase with ⟨-, hs⟩ | ⟨heq, -⟩
          · exact ⟨hs.symm, hev.symm⟩
          · exact absurd heq hlast
      · rw [if_neg hlast]
        push_neg at hlast
        simp only [Except.ok.injEq, Prod.mk.injEq]
        constructor
        · rintro ⟨hs, hev⟩
          exact ⟨hown, hmem, hev.symm, Or.inr ⟨hlast, hs.symm⟩⟩
        · rintro ⟨-, -, hev, hcase⟩
          rcases hcase with ⟨hne, -⟩ | ⟨-, hs⟩
          · exact absurd hlast hne
          · exact ⟨hs.symm, hev.symm⟩
    · rw [if_neg hmem]
      constructor
      · intro hcontra; exact absurd hcontra (by simp)
      · rintro ⟨-, hm, -, -⟩
        exact (hmem hm).elim
  · rw [if_neg hown]
    constructor
    · intro hcontra; exact absurd hcontra (by simp)
    · rintro ⟨ho, -, -, -⟩
      exact (hown ho).elim


theorem addAuthorizedRevoker_ok_iff (s s' : CState) (a b : Address) (ev : List Event) :
    addAuthorizedRevoker s a b = .ok (s', ev) ↔
      isOwner s a = true ∧ s.revokerIndex b = 0 ∧
      (s.revokerList.length = 0 ∨ s.revokerList.getD 0 0 ≠ b) ∧
      s' = { s with
              revokerIndex := fun x =>
                if x = b then s.revokerList.length + 1 else s.revokerIndex x,
              revokerList := s.revokerList ++ [b] } ∧
      ev = [.RevokerAdded b] := by
  simp only [addAuthorizedRevoker]
  by_cases hown : isOwner s a = true
  · rw [if_pos hown]
    by_cases hpre : (s.revokerIndex b == 0 &&
        (s.revokerList.length == 0 || s.revokerList.getD 0 0 != b)) = true
    · rw [if_pos hpre]
      simp only [Bool.and_eq_true, Bool.or_eq_true, beq_iff_eq, bne_iff_ne,
        Nat.beq_eq_true_eq] at hpre
      simp only [Except.ok.injEq, Prod.mk.injEq]
      constructor
      · rintro ⟨hs, hev⟩
        exact ⟨hown, hpre.1, hpre.2, hs.symm, hev.symm⟩
      · rintro ⟨-, -, -, hs, hev⟩
        exact ⟨hs.symm, hev.symm⟩
    · rw [if_neg hpre]
      simp only [Bool.and_eq_true, Bool.or_eq_true, beq_iff_eq, bne_iff_ne,
        Nat.beq_eq_true_eq, not_and_or, not_or] at hpre
      constructor
      · intro hcontra; exact absurd hcontra (by simp)
      · rintro ⟨-, h1, h2, -, -⟩
        rcases hpre with hp | hp
        · exact (hp h1).elim
        · rcases h2 with h2 | h2
          · exact (hp.1 h2).elim
          · exact absurd (by simpa using h2) (by simpa using hp.2)
  · rw [if_neg hown]
    constructor
    · intro hcontra; exact absurd hcontra (by simp)
    · rintro ⟨ho, -, -, -, -⟩
      exact (hown ho).elim

theorem removeAuthorizedRevoker_ok_iff (s s' : CState) (a b : Address) (ev : List Event) :
    removeAuthorizedRevoker s a b = .ok (s', ev) ↔
      isOwner s a = true ∧ s.revokerIndex b > 0 ∧ ev = [.RevokerRemoved b] ∧
      ((s.revokerIndex b - 1 ≠ s.revokerList.length - 1 ∧
        s' = { s with
                revokerList := (s.revokerList.set (s.revokerIndex b - 1)
                  (s.revokerList.getD (s.revokerList.length - 1) 0)).dropLast,
                revokerIndex := fun x =>
                  if x = b then 0
                  else if x = s.revokerList.getD (s.revokerList.length - 1) 0 then
                    s.revokerIndex b - 1 + 1
                  else s.revokerIndex x }) ∨
       (s.revokerIndex b - 1 = s.revokerList.length - 1 ∧
        s' = { s with
                revokerList := s.revokerList.dropLast,
                revokerIndex := fun x =>
                  if x = b then 0 else s.revokerIndex x })) := by
  simp only [removeAuthorizedRevoker]
  by_cases hown : isOwner s a = true
  · rw [if_pos hown]
    by_cases hmem : s.revokerIndex b > 0
    · rw [if_pos hmem]
      by_cases hlast : s.revokerIndex b - 1 ≠ s.revokerList.length - 1
      · rw [if_pos hlast]
        simp only [Except.ok.injEq, Prod.mk.injEq]
        constructor
        · rintro ⟨hs, hev⟩
          exact ⟨hown, hmem, hev.symm, Or.inl ⟨hlast, hs.symm⟩⟩
        · rintro ⟨-, -, hev, hcase⟩
          rcases hcase with ⟨-, hs⟩ | ⟨heq, -⟩
          · exact ⟨hs.symm, hev.symm⟩
          · exact absurd heq hlast
      · rw [if_neg hlast]
        push_neg at hlast
        simp only [Except.ok.injEq, Prod.mk.injEq]
        constructor
        · rintro ⟨hs, hev⟩
          exact ⟨hown, hmem, hev.symm, Or.inr ⟨hlast, hs.symm⟩⟩
        · rintro ⟨-, -, hev, hcase⟩
          rcases hcase with ⟨hne, -⟩ | ⟨-, hs⟩
          · exact absurd hlast hne
          · exact ⟨hs.symm, hev.symm⟩
    · rw [if_neg hmem]
      constructor
      · intro hcontra; exact absurd hcontra (by simp)
      · rintro ⟨-, hm, -, -⟩
        exact (hmem hm).elim
  · rw [if_neg hown]
    constructor
    · intro hcontra; exact absurd hcontra (by simp)
    · rintro ⟨ho, -, -, -⟩
      exact (hown ho).elim

theorem initializeContract_ok_iff (s s' : CState) (sender : Address)
    (direct : Bool) (o2 o3 : Address) (ev : List Event) :
    initializeContract s sender direct o2 o3 = .ok (s', ev) ↔
      s.initialized = false ∧ direct = true ∧
      s' = { s with initialized := true,
                    owner0 := sender, owner1 := o2, owner2 := o3 } ∧
      ev = [] := by
  simp only [initializeContract]
  cases hini : s.initialized
  · rw [if_neg (by simp [hini])]
    cases direct
    · simp
    · simp only [if_pos trivial, Except.ok.injEq, Prod.mk.injEq, true_and]
      constructor
      · rintro ⟨hs, hev⟩
        exact ⟨hs.symm, hev.symm⟩
      · rintro ⟨hs, hev⟩
        exact ⟨hs.symm, hev.symm⟩
  · rw [if_pos (by simp [hini])]
    simp

/-! ## The index-map / list correspondence invariant -/

theorem getElem?_dropLast_of_lt {α : Type} {l : List α} {i : Nat}
    (h : i < l.length - 1) : l.dropLast[i]? = l[i]? := by
  rw [List.dropLast_eq_take]
  exact List.getElem?_take_of_lt h

theorem lt_length_of_getElem?_some {α : Type} {l : List α} {i : Nat} {x : α}
    (h : l[i]? = some x) : i < l.length :=
  (List.getElem?_eq_some.mp h).1

/-- The lock-step correspondence between an authorization index map and its
ordered list: a nonzero index entry names (1-based) the slot where the
address is stored, and every slot's occupant has the matching entry. -/
def AuthInv (idx : Address → Nat) (list : List Address) : Prop :=
  (∀ x, idx x ≠ 0 → list[idx x - 1]? = some x) ∧
  (∀ j x, list[j]? = some x → idx x = j + 1)

theorem authInv_mem_iff {idx : Address → Nat} {list : List Address}
    (h : AuthInv idx list) (x : Address) : x ∈ list ↔ idx x ≠ 0 := by
  constructor
  · intro hx
    obtain ⟨j, hj⟩ := List.mem_iff_getElem?.mp hx
    rw [h.2 j x hj]
    exact Nat.succ_ne_zero j
  · intro hx
    exact List.mem_iff_getElem?.mpr ⟨idx x - 1, h.1 x hx⟩

theorem authInv_empty : AuthInv (fun _ => 0) [] := by
  constructor
  · intro x hx; exact absurd rfl hx
  · intro j x hj; simp at hj

theorem authInv_add {idx : Address → Nat} {list : List Address} (b : Address)
    (h : AuthInv idx list) (hb : idx b = 0) :
    AuthInv (fun x => if x = b then list.length + 1 else idx x) (list ++ [b]) := by
  obtain ⟨h1, h2⟩ := h
  constructor
  · intro x hx
    by_cases hxb : x = b
    · subst hxb
      simp only [if_pos rfl, Nat.add_sub_cancel]
      exact List.getElem?_concat_length list x
    · simp only [if_neg hxb] at hx ⊢
      have hi := h1 x hx
      rw [List.getElem?_append_left (lt_length_of_getElem?_some hi)]
      exact hi
  · intro j x hj
    have hjlen : j < list.length + 1 := by
      have := lt_length_of_getElem?_some hj
      simpa using this
    rcases Nat.lt_or_ge j list.length with hlt | hge
    · rw [List.getElem?_append_left hlt] at hj
      have hidx := h2 j x hj
      have hxb : x ≠ b := by
        intro hxb; subst hxb
        rw [hb] at hidx
        exact Nat.succ_ne_zero j hidx.symm
      simp only [if_neg hxb]
      exact hidx
    · have hje : j = list.length := by omega
      subst hje
      rw [List.getElem?_concat_length] at hj
      cases hj
      simp

theorem authInv_remove_last {idx : Address → Nat} {list : List Address}
    (b : Address) (h : AuthInv idx list) (hb : idx b ≠ 0)
    (hlast : idx b - 1 = list.length - 1) :
    AuthInv (fun x => if x = b then 0 else idx x) list.dropLast := by
  obtain ⟨h1, h2⟩ := h
  have hbpos := h1 b hb
  have hblen : idx b - 1 < list.length := lt_length_of_getElem?_some hbpos
  constructor
  · intro x hx
    by_cases hxb : x = b
    · simp [hxb] at hx
    · simp only [if_neg hxb] at hx ⊢
      have hi := h1 x hx
      have hilen : idx x - 1 < list.length := lt_length_of_getElem?_some hi
      have hine : idx x - 1 ≠ list.length - 1 := by
        intro heq
        rw [heq, ← hlast] at hi
        rw [hbpos] at hi
        cases hi
        exact hxb rfl
      rw [getElem?_dropLast_of_lt (by omega)]
      exact hi
  · intro j x hj
    have hjlen : j < list.length - 1 := by
      have := lt_length_of_getElem?_some hj
      simpa using this
    rw [getElem?_dropLast_of_lt hjlen] at hj
    have hidx := h2 j x hj
    have hxb : x ≠ b := by
      intro hxb; subst hxb
      omega
    simp only [if_neg hxb]
    exact hidx

theorem authInv_remove_swap {idx : Address → Nat} {list : List Address}
    (b : Address) (h : AuthInv idx list) (hb : idx b ≠ 0)
    (hlast : idx b - 1 ≠ list.length - 1) :
    AuthInv
      (fun x => if x = b then 0
        else if x = list.getD (list.length - 1) 0 then idx b - 1 + 1
        else idx x)
      ((list.set (idx b - 1) (list.getD (list.length - 1) 0)).dropLast) := by
  obtain ⟨h1, h2⟩ := h
  have hbpos := h1 b hb
  have hblen : idx b - 1 < list.length := lt_length_of_getElem?_some hbpos
  have hlen1 : list.length - 1 < list.length := by omega
  set moved := list.getD (list.length - 1) 0 with hmoved
  have hmovedElem : list[list.length - 1]? = some moved := by
    rw [hmoved, List.getD_eq_getElem?_getD, List.getElem?_eq_getElem hlen1]
    rfl
  have hidxmoved : idx moved = list.length := by
    have := h2 (list.length - 1) moved hmovedElem
    omega
  have hmb : moved ≠ b := by
    intro heq
    rw [heq] at hidxmoved
    omega
  have hblt : idx b - 1 < list.length - 1 := by omega
  have hlenset : (list.set (idx b - 1) moved).length = list.length :=
    List.length_set list (idx b - 1) moved
  have hgetset : ∀ j, j < list.length - 1 →
      (list.set (idx b - 1) moved).dropLast[j]? =
        if j = idx b - 1 then some moved else list[j]? := by
    intro j hj
    rw [getElem?_dropLast_of_lt (by omega)]
    by_cases hji : j = idx b - 1
    · rw [if_pos hji, hji]
      exact List.getElem?_set_self (by omega)
    · rw [if_neg hji]
      exact List.getElem?_set_ne (fun h => hji h.symm)
  constructor
  · intro x hx
    by_cases hxb : x = b
    · simp [hxb] at hx
    · by_cases hxm : x = moved
      · subst hxm
        simp only [if_neg hxb, eq_self_iff_true, if_true, Nat.add_sub_cancel] at hx ⊢
        rw [hgetset (idx b - 1) hblt, if_pos rfl]
      · simp only [if_neg hxb, if_neg hxm] at hx ⊢
        have hi := h1 x hx
        have hilen : idx x - 1 < list.length := lt_length_of_getElem?_some hi
        have hine : idx x - 1 ≠ list.length - 1 := by
          intro heq
          rw [heq, hmovedElem] at hi
          cases hi
          exact hxm rfl
        have hineb : idx x - 1 ≠ idx b - 1 := by
          intro heq
          rw [heq, hbpos] at hi
          cases hi
          exact hxb rfl
        rw [hgetset (idx x - 1) (by omega), if_neg hineb]
        exact hi
  · intro j x hj
    have hjlen : j < list.length - 1 := by
      have := lt_length_of_getElem?_some hj
      rw [List.length_dropLast, hlenset] at this
      exact this
    rw [hgetset j hjlen] at hj
    by_cases hji : j = idx b - 1
    · rw [if_pos hji] at hj
      cases hj
      simp only [if_neg hmb, eq_self_iff_true, if_true]
      omega
    · rw [if_neg hji] at hj
      have hidx := h2 j x hj
      have hxb : x ≠ b := by
        intro heq; subst heq; omega
      have hxm : x ≠ moved := by
        intro heq; subst heq; omega
      simp only [if_neg hxb, if_neg hxm]
      exact hidx

/-! ## The per-subject hash-uniqueness invariant -/

theorem set_getElem_self {α : Type} (l : List α) (i : Nat) (h : i < l.length) :
    l.set i l[i] = l := by
  apply List.ext_getElem?
  intro j
  by_cases hj : i = j
  · subst hj
    rw [List.getElem?_set_self h, List.getElem?_eq_getElem h]
  · rw [List.getElem?_set_ne hj]

theorem swapRemove_perm_eraseIdx (l : List Document) (i : Nat) (h : i < l.length) :
    (swapRemove l i).Perm (l.eraseIdx i) := by
  have hne : l ≠ [] := by
    intro h0
    subst h0
    simp at h
  obtain ⟨L, b, rfl⟩ : ∃ L b, l = L ++ [b] :=
    ⟨l.dropLast, l.getLast hne, (List.dropLast_concat_getLast hne).symm⟩
  have hlen : (L ++ [b]).length = L.length + 1 := by simp
  have hgetD : (L ++ [b]).getD ((L ++ [b]).length - 1) default = b := by
    rw [hlen, Nat.add_sub_cancel, List.getD_eq_getElem?_getD,
      List.getElem?_concat_length]
    rfl
  rcases Nat.lt_or_ge i L.length with hi | hi
  · rw [swapRemove, hgetD, List.set_append_left i b hi, List.dropLast_concat,
      List.eraseIdx_append_of_lt_length hi,
      List.set_eq_take_cons_drop b hi, List.eraseIdx_eq_take_drop_succ,
      List.append_assoc]
    exact (@List.perm_append_comm _ [b] (L.drop (i + 1))).append_left (L.take i)
  · have hieq : i = L.length := by
      rw [hlen] at h
      omega
    subst hieq
    rw [swapRemove, hgetD]
    have hset : (L ++ [b]).set L.length b = L ++ [b] := by
      apply List.ext_getElem?
      intro j
      by_cases hj : L.length = j
      · subst hj
        rw [List.getElem?_set_self (by simp), List.getElem?_concat_length]
      · rw [List.getElem?_set_ne hj]
    rw [hset, List.dropLast_concat, List.eraseIdx_eq_take_drop_succ]
    have htake : (L ++ [b]).take L.length = L := by
      rw [List.take_left]
    have hdrop : (L ++ [b]).drop (L.length + 1) = [] := by
      apply List.drop_eq_nil_of_le
      rw [hlen]
    rw [htake, hdrop, List.append_nil]

theorem nodupHash_swapRemove {l : List Document} {i : Nat} (h : i < l.length)
    (hnd : (l.map Document.sha256Hash).Nodup) :
    ((swapRemove l i).map Document.sha256Hash).Nodup := by
  have hperm := (swapRemove_perm_eraseIdx l i h).map Document.sha256Hash
  refine hperm.nodup_iff.mpr ?_
  exact hnd.sublist ((l.eraseIdx_sublist i).map Document.sha256Hash)

/-- The inductive invariant of the contract: both authorization pairs are in
lock-step, every subject's collection has pairwise distinct hashes, and the
reentrancy flag is clear between transactions. -/
def Invariant (s : CState) : Prop :=
  AuthInv s.issuerIndex s.issuerList ∧
  AuthInv s.revokerIndex s.revokerList ∧
  (∀ u, ((s.userDocuments u).map Document.sha256Hash).Nodup) ∧
  s.busy = false

theorem invariant_initialState : Invariant initialState := by
  refine ⟨authInv_empty, authInv_empty, ?_, rfl⟩
  intro u
  simp [initialState]

theorem invariant_step {s s' : CState} (hinv : Invariant s) (hstep : Step s s') :
    Invariant s' := by
  obtain ⟨hiss, hrev, hdocs, hbusy⟩ := hinv
  cases hstep with
  | init sender direct o2 o3 evs h =>
    obtain ⟨-, -, hs, -⟩ := (initializeContract_ok_iff s s' sender direct o2 o3 evs).mp h
    subst hs
    exact ⟨hiss, hrev, hdocs, hbusy⟩
  | addIssuer sender issuer evs h =>
    obtain ⟨-, hzero, -, hs, -⟩ := (addAuthorizedIssuer_ok_iff s s' sender issuer evs).mp h
    subst hs
    exact ⟨authInv_add issuer hiss hzero, hrev, hdocs, hbusy⟩
  | removeIssuer sender issuer evs h =>
    obtain ⟨-, hpos, -, hcase⟩ := (removeAuthorizedIssuer_ok_iff s s' sender issuer evs).mp h
    rcases hcase with ⟨hne, hs⟩ | ⟨heq, hs⟩
    · subst hs
      exact ⟨authInv_remove_swap issuer hiss (by omega) hne, hrev, hdocs, hbusy⟩
    · subst hs
      exact ⟨authInv_remove_last issuer hiss (by omega) heq, hrev, hdocs, hbusy⟩
  | addRevoker sender revoker evs h =>
    obtain ⟨-, hzero, -, hs, -⟩ := (addAuthorizedRevoker_ok_iff s s' sender revoker evs).mp h
    subst hs
    exact ⟨hiss, authInv_add revoker hrev hzero, hdocs, hbusy⟩
  | removeRevoker sender revoker evs h =>
    obtain ⟨-, hpos, -, hcase⟩ := (removeAuthorizedRevoker_ok_iff s s' sender revoker evs).mp h
    rcases hcase with ⟨hne, hs⟩ | ⟨heq, hs⟩
    · subst hs
      exact ⟨hiss, authInv_remove_swap revoker hrev (by omega) hne, hdocs, hbusy⟩
    · subst hs
      exact ⟨hiss, authInv_remove_last revoker hrev (by omega) heq, hdocs, hbusy⟩
  | store sender userId sha256Hash ipfsCID evs h =>
    obtain ⟨-, -, hnone, hs, -⟩ :=
      (storeDocument_ok_iff s s' sender userId sha256Hash ipfsCID evs).mp h
    subst hs
    refine ⟨hiss, hrev, ?_, hbusy⟩
    intro u
    by_cases hu : u = userId
    · have hgoal : (List.map Document.sha256Hash
          (s.userDocuments userId ++ [⟨sha256Hash, ipfsCID⟩])).Nodup := by
        rw [List.map_append, List.map_cons, List.map_nil, List.nodup_append]
        refine ⟨hdocs userId, List.nodup_singleton _, ?_⟩
        intro x hx
        obtain ⟨d, hd, hdx⟩ := List.mem_map.mp hx
        simp only [List.mem_singleton]
        intro hxeq
        exact hnone d hd (hdx.trans hxeq)
      simpa [hu] using hgoal
    · simpa [hu] using hdocs u
  | revoke sender userId sha256Hash evs h =>
    obtain ⟨-, -, hcase⟩ := (revokeDocument_ok_iff s s' sender userId sha256Hash evs).mp h
    rcases hcase with ⟨-, hs, -⟩ | ⟨i, hi, hs, -⟩
    · subst hs
      exact ⟨hiss, hrev, hdocs, hbusy⟩
    · subst hs
      refine ⟨hiss, hrev, ?_, hbusy⟩
      intro u
      by_cases hu : u = userId
      · obtain ⟨hilen, -, -⟩ := List.findIdx?_eq_some_iff_getElem.mp hi
        simpa [hu] using nodupHash_swapRemove hilen (hdocs userId)
      · simpa [hu] using hdocs u

theorem invariant_reachable {s : CState} (h : Reachable s) : Invariant s := by
  induction h with
  | refl => exact invariant_initialState
  | tail _ hstep ih => exact invariant_step ih hstep

theorem map_eraseIdx_eq {α β : Type} (f : α → β) (l : List α) (i : Nat) :
    (l.eraseIdx i).map f = (l.map f).eraseIdx i := by
  rw [List.eraseIdx_eq_take_drop_succ, List.eraseIdx_eq_take_drop_succ,
    List.map_append, List.map_take, List.map_drop]

theorem not_mem_eraseIdx_of_nodup {α : Type} (l : List α) (i : Nat)
    (h : l.Nodup) (hi : i < l.length) : l[i] ∉ l.eraseIdx i := by
  have hdecomp : l = l.take i ++ l[i] :: l.drop (i + 1) := by
    conv_lhs => rw [← List.take_append_drop i l]
    congr 1
    exact List.drop_eq_getElem_cons hi
  have h2 : (l.take i ++ l[i] :: l.drop (i + 1)).Nodup := hdecomp ▸ h
  obtain ⟨-, hcons, hdisj⟩ := List.nodup_append.mp h2
  obtain ⟨hnotdrop, -⟩ := List.nodup_cons.mp hcons
  rw [List.eraseIdx_eq_take_drop_succ]
  intro hmem
  rcases List.mem_append.mp hmem with hm | hm
  · exact hdisj hm (List.mem_cons_self _ _)
  · exact hnotdrop hm

/-- C1: in every reachable state no two records in one subject's collection
share a `sha256Hash` (stated both as `Nodup` of the hash projection and as
positional injectivity), and every single transition preserves this, so the
first match `revokeDocument`'s scan stops at is the only match. -/
theorem c1_hash_unique (s : CState) (hreach : Reachable s) :
    (∀ u, ((s.userDocuments u).map Document.sha256Hash).Nodup) ∧
    (∀ u i j (hi : i < (s.userDocuments u).length)
        (hj : j < (s.userDocuments u).length),
      (s.userDocuments u)[i].sha256Hash = (s.userDocuments u)[j].sha256Hash →
      i = j) ∧
    (∀ s', Step s s' →
      ∀ u, ((s'.userDocuments u).map Document.sha256Hash).Nodup) := by
  obtain ⟨-, -, hdocs, -⟩ := invariant_reachable hreach
  refine ⟨hdocs, ?_, ?_⟩
  · intro u i j hi hj heq
    have hmap := hdocs u
    have hilen : i < ((s.userDocuments u).map Document.sha256Hash).length := by
      simpa using hi
    have hjlen : j < ((s.userDocuments u).map Document.sha256Hash).length := by
      simpa using hj
    have hmapeq : (List.map Document.sha256Hash (s.userDocuments u))[i] =
        (List.map Document.sha256Hash (s.userDocuments u))[j] := by
      simpa using heq
    exact (List.Nodup.getElem_inj_iff hmap).mp hmapeq
  · intro s' hstep u
    have hinv' := invariant_step ⟨(invariant_reachable hreach).1,
      (invariant_reachable hreach).2.1, hdocs,
      (invariant_reachable hreach).2.2.2⟩ hstep
    exact hinv'.2.2.1 u

theorem c1_hash_unique_witness :
    (∀ u, ((initialState.userDocuments u).map Document.sha256Hash).Nodup) ∧
    (∀ u i j (hi : i < (initialState.userDocuments u).length)
        (hj : j < (initialState.userDocuments u).length),
      (initialState.userDocuments u)[i].sha256Hash =
        (initialState.userDocuments u)[j].sha256Hash → i = j) ∧
    (∀ s', Step initialState s' →
      ∀ u, ((s'.userDocuments u).map Document.sha256Hash).Nodup) :=
  c1_hash_unique initialState Relation.ReflTransGen.refl

/-- C5: in every reachable state, membership in each authorization list is
equivalent to a nonzero index-map entry, the nonzero entry names the member's
slot in 1-based form, and every transition preserves the correspondence. -/
theorem c5_index_list_correspondence (s : CState) (hreach : Reachable s) :
    (∀ a, a ∈ s.issuerList ↔ s.issuerIndex a ≠ 0) ∧
    (∀ a, a ∈ s.revokerList ↔ s.revokerIndex a ≠ 0) ∧
    (∀ a, s.issuerIndex a ≠ 0 →
      s.issuerList[s.issuerIndex a - 1]? = some a) ∧
    (∀ a, s.revokerIndex a ≠ 0 →
      s.revokerList[s.revokerIndex a - 1]? = some a) ∧
    (∀ s', Step s s' →
      (∀ a, a ∈ s'.issuerList ↔ s'.issuerIndex a ≠ 0) ∧
      (∀ a, a ∈ s'.revokerList ↔ s'.revokerIndex a ≠ 0)) := by
  obtain ⟨hiss, hrev, hdocs, hbusy⟩ := invariant_reachable hreach
  refine ⟨authInv_mem_iff hiss, authInv_mem_iff hrev, hiss.1, hrev.1, ?_⟩
  intro s' hstep
  have hinv' := invariant_step ⟨hiss, hrev, hdocs, hbusy⟩ hstep
  exact ⟨authInv_mem_iff hinv'.1, authInv_mem_iff hinv'.2.1⟩

theorem c5_index_list_correspondence_witness :
    (∀ a, a ∈ initialState.issuerList ↔ initialState.issuerIndex a ≠ 0) ∧
    (∀ a, a ∈ initialState.revokerList ↔ initialState.revokerIndex a ≠ 0) ∧
    (∀ a, initialState.issuerIndex a ≠ 0 →
      initialState.issuerList[initialState.issuerIndex a - 1]? = some a) ∧
    (∀ a, initialState.revokerIndex a ≠ 0 →
      initialState.revokerList[initialState.revokerIndex a - 1]? = some a) ∧
    (∀ s', Step initialState s' →
      (∀ a, a ∈ s'.issuerList ↔ s'.issuerIndex a ≠ 0) ∧
      (∀ a, a ∈ s'.revokerList ↔ s'.revokerIndex a ≠ 0)) :=
  c5_index_list_correspondence initialState Relation.ReflTransGen.refl

theorem swapRemove_concat (L : List Document) (d : Document) :
    swapRemove (L ++ [d]) L.length = L := by
  have hlen : (L ++ [d]).length - 1 = L.length := by simp
  have hgetD : (L ++ [d]).getD ((L ++ [d]).length - 1) default = d := by
    rw [hlen, List.getD_eq_getElem?_getD, List.getElem?_concat_length]
    rfl
  have hset : (L ++ [d]).set L.length d = L ++ [d] := by
    apply List.ext_getElem?
    intro j
    by_cases hj : L.length = j
    · subst hj
      rw [List.getElem?_set_self (by simp), List.getElem?_concat_length]
    · rw [List.getElem?_set_ne hj]
  rw [swapRemove, hgetD, hset, List.dropLast_concat]

/-- C2: a successful `storeDocument` makes `(hash, ref)` appear in
`getDocuments(subject)`, and a subsequent successful `revokeDocument` of that
hash removes it — no record with the hash remains — and `getDocumentCount`
drops by exactly one. -/
theorem c2_store_revoke_roundtrip (s s₁ s₂ : CState) (a b : Address)
    (u : Subject) (hsh : Hash) (ref : String) (ev₁ ev₂ : List Event)
    (h1 : storeDocument s a u hsh ref = .ok (s₁, ev₁))
    (h2 : revokeDocument s₁ b u hsh = .ok (s₂, ev₂)) :
    (hsh, ref) ∈ (getDocuments s₁ u).1.zip (getDocuments s₁ u).2 ∧
    hsh ∉ (getDocuments s₂ u).1 ∧
    getDocumentCount s₂ u + 1 = getDocumentCount s₁ u := by
  obtain ⟨hbusy, -, hnone, hs₁, -⟩ :=
    (storeDocument_ok_iff s s₁ a u hsh ref ev₁).mp h1
  have hdocs₁ : s₁.userDocuments u = s.userDocuments u ++ [⟨hsh, ref⟩] := by
    rw [hs₁]
    simp
  obtain ⟨-, -, hcase⟩ := (revokeDocument_ok_iff s₁ s₂ b u hsh ev₂).mp h2
  have hmem₁ : (⟨hsh, ref⟩ : Document) ∈ s₁.userDocuments u := by
    rw [hdocs₁]
    exact List.mem_append_right _ (List.mem_singleton_self _)
  rcases hcase with ⟨hfind, -, -⟩ | ⟨i, hfind, hs₂, -⟩
  · exfalso
    have := List.findIdx?_eq_none_iff.mp hfind _ hmem₁
    simp at this
  · -- the first (and only) match sits at the appended position
    obtain ⟨hilen, hpi, hmin⟩ := List.findIdx?_eq_some_iff_getElem.mp hfind
    have hieq : i = (s.userDocuments u).length := by
      by_contra hne
      have hilt : i < (s.userDocuments u).length := by
        rw [hdocs₁] at hilen
        simp at hilen
        omega
      have hgete : (s₁.userDocuments u)[i] = (s.userDocuments u)[i] := by
        have : (s₁.userDocuments u)[i]? = (s.userDocuments u)[i]? := by
          rw [hdocs₁]
          exact List.getElem?_append_left hilt
        rw [List.getElem?_eq_getElem hilen, List.getElem?_eq_getElem hilt] at this
        exact Option.some.inj this
      rw [hgete] at hpi
      simp only [beq_iff_eq] at hpi
      exact hnone _ (List.getElem_mem hilt) hpi
    have hdocs₂ : s₂.userDocuments u = s.userDocuments u := by
      rw [hs₂]
      simp only
      rw [if_pos trivial, hdocs₁, hieq, swapRemove_concat]
    refine ⟨?_, ?_, ?_⟩
    · rw [getDocuments]
      simp only
      rw [List.zip_map']
      exact List.mem_map.mpr ⟨⟨hsh, ref⟩, hmem₁, rfl⟩
    · rw [getDocuments]
      simp only
      rw [hdocs₂]
      intro hmem
      obtain ⟨d, hd, hdh⟩ := List.mem_map.mp hmem
      exact hnone d hd hdh
    · rw [getDocumentCount, getDocumentCount, hdocs₂, hdocs₁]
      simp

/-- An initialized state with owners 1, 2, 3 used by concrete witnesses. -/
def wS0 : CState :=
  { initialState with initialized := true, owner0 := 1, owner1 := 2, owner2 := 3 }

/-- `wS0` after owner 1 stores document (hash 7, ref "cid") for subject 42. -/
def wS1 : CState :=
  { wS0 with userDocuments := fun v =>
      if v = 42 then wS0.userDocuments 42 ++ [⟨7, "cid"⟩] else wS0.userDocuments v }

/-- `wS1` after owner 1 revokes hash 7 for subject 42. -/
def wS2 : CState :=
  { wS1 with userDocuments := fun v =>
      if v = 42 then swapRemove (wS1.userDocuments 42) 0 else wS1.userDocuments v }

theorem c2_store_revoke_roundtrip_witness :
    ((7 : Hash), "cid") ∈ (getDocuments wS1 42).1.zip (getDocuments wS1 42).2 ∧
    (7 : Hash) ∉ (getDocuments wS2 42).1 ∧
    getDocumentCount wS2 42 + 1 = getDocumentCount wS1 42 :=
  c2_store_revoke_roundtrip wS0 wS1 wS2 1 1 42 7 "cid"
    [.DocumentStored 42 7 "cid"] [.DocumentRevoked 42 7 "cid"] rfl rfl

/-- C3: when a record with the supplied hash is already in the subject's
collection, a `storeDocument` call by an authorized caller fails with
`DuplicateDocument`; in this embedding an `.error` result carries no state
and no events, matching the revert of the whole transaction (no mutation,
nothing emitted). -/
theorem c3_duplicate_store_rejected (s : CState) (a : Address) (u : Subject)
    (hsh : Hash) (ref : String) (d : Document)
    (hbusy : s.busy = false)
    (hauth : isIssuer s a = true ∨ isOwner s a = true)
    (hd : d ∈ s.userDocuments u) (hdh : d.sha256Hash = hsh) :
    storeDocument s a u hsh ref = .error .DuplicateDocument := by
  rcases s with ⟨ini, o0, o1, o2, iIdx, iList, rIdx, rList, docs, busy⟩
  obtain rfl : busy = false := hbusy
  simp only [isIssuer, isOwner, decide_eq_true_eq, Bool.or_eq_true,
    beq_iff_eq] at hauth
  simp only [storeDocument, nonReentrant, storeDocumentBody]
  rw [if_neg (by simp)]
  rw [if_pos (show (decide (iIdx a > 0) || a == o0 || a == o1 || a == o2) = true by
    simp only [Bool.or_eq_true, decide_eq_true_eq, beq_iff_eq]
    tauto)]
  rw [if_pos (List.any_eq_true.mpr ⟨d, hd, by simp [hdh]⟩)]

theorem c3_duplicate_store_rejected_witness :
    storeDocument wS1 1 42 7 "other" = .error .DuplicateDocument :=
  c3_duplicate_store_rejected wS1 1 42 7 "other" ⟨7, "cid"⟩ rfl
    (Or.inr rfl) (by simp [wS1, wS0, initialState]) rfl

/-- C6: a caller that is neither an owner nor an issuer cannot store, and a
caller that is neither an owner nor a revoker cannot revoke (even when the
hash is absent): both fail with `Unauthorized`, which in this embedding
carries no state — the transaction reverts with no change. -/
theorem c6_unauthorized_rejected (s : CState) (a : Address) (u : Subject)
    (hsh : Hash) (ref : String) (hbusy : s.busy = false)
    (hown : isOwner s a = false) :
    (isIssuer s a = false → storeDocument s a u hsh ref = .error .Unauthorized) ∧
    (isRevoker s a = false → revokeDocument s a u hsh = .error .Unauthorized) := by
  rcases s with ⟨ini, o0, o1, o2, iIdx, iList, rIdx, rList, docs, busy⟩
  obtain rfl : busy = false := hbusy
  simp only [isOwner, Bool.or_eq_false_iff, beq_eq_false_iff_ne, ne_eq] at hown
  constructor
  · intro hiss
    simp only [isIssuer, decide_eq_false_iff_not] at hiss
    simp only [storeDocument, nonReentrant, storeDocumentBody]
    rw [if_neg (by simp)]
    rw [if_neg (show ¬ (decide (iIdx a > 0) || a == o0 || a == o1 || a == o2) = true by
      simp only [Bool.or_eq_true, decide_eq_true_eq, beq_iff_eq]
      push_neg
      exact ⟨⟨⟨by omega, hown.1.1⟩, hown.1.2⟩, hown.2⟩)]
  · intro hrev
    simp only [isRevoker, decide_eq_false_iff_not] at hrev
    simp only [revokeDocument, nonReentrant, revokeDocumentBody]
    rw [if_neg (by simp)]
    rw [if_neg (show ¬ (decide (rIdx a > 0) || a == o0 || a == o1 || a == o2) = true by
      simp only [Bool.or_eq_true, decide_eq_true_eq, beq_iff_eq]
      push_neg
      exact ⟨⟨⟨by omega, hown.1.1⟩, hown.1.2⟩, hown.2⟩)]

theorem c6_unauthorized_rejected_witness :
    (isIssuer wS0 9 = false → storeDocument wS0 9 42 7 "cid" = .error .Unauthorized) ∧
    (isRevoker wS0 9 = false → revokeDocument wS0 9 42 7 = .error .Unauthorized) :=
  c6_unauthorized_rejected wS0 9 42 7 "cid" rfl rfl

/-- C9: the single global busy flag (modelled from the spec, since the
OpenZeppelin `ReentrancyGuard` source is not part of the repo) rejects any
nested `storeDocument`/`revokeDocument` call with `ReentrancyError` while it
is set — the rejected call carries no state, so it neither observes nor
creates intermediate state — and the flag is clear again on every successful
exit (a reverting exit restores the pre-call state, where it was clear). -/
theorem c9_reentrancy_guard (s : CState) (a : Address) (u : Subject)
    (hsh : Hash) (ref : String) :
    (s.busy = true → storeDocument s a u hsh ref = .error .ReentrancyError ∧
      revokeDocument s a u hsh = .error .ReentrancyError) ∧
    (∀ s' ev, storeDocument s a u hsh ref = .ok (s', ev) → s'.busy = false) ∧
    (∀ s' ev, revokeDocument s a u hsh = .ok (s', ev) → s'.busy = false) := by
  refine ⟨?_, ?_, ?_⟩
  · intro hbusy
    constructor <;> simp [storeDocument, revokeDocument, nonReentrant, hbusy]
  · intro s' ev hok
    obtain ⟨hb, -, -, hs, -⟩ := (storeDocument_ok_iff s s' a u hsh ref ev).mp hok
    rw [hs]
    exact hb
  · intro s' ev hok
    obtain ⟨hb, -, hcase⟩ := (revokeDocument_ok_iff s s' a u hsh ev).mp hok
    rcases hcase with ⟨-, hs, -⟩ | ⟨i, -, hs, -⟩ <;> rw [hs] <;> exact hb

/-- A state whose reentrancy flag is set, as seen mid-execution. -/
def wBusy : CState := { wS0 with busy := true }

theorem c9_reentrancy_guard_witness :
    (wBusy.busy = true → storeDocument wBusy 1 42 7 "cid" = .error .ReentrancyError ∧
      revokeDocument wBusy 1 42 7 = .error .ReentrancyError) ∧
    (∀ s' ev, storeDocument wBusy 1 42 7 "cid" = .ok (s', ev) → s'.busy = false) ∧
    (∀ s' ev, revokeDocument wBusy 1 42 7 = .ok (s', ev) → s'.busy = false) :=
  c9_reentrancy_guard wBusy 1 42 7 "cid"

/-- C10: each successful mutating operation touches only its own component
of the state — `storeDocument`/`revokeDocument` for a subject leave the
owners, both authorization structures and all other subjects' collections
unchanged; each membership operation leaves the documents, the owners and
the other authorization pair unchanged. -/
theorem c10_frame_effects (s s' : CState) :
    (∀ a u hsh ref ev, storeDocument s a u hsh ref = .ok (s', ev) →
      s'.initialized = s.initialized ∧ s'.owner0 = s.owner0 ∧
      s'.owner1 = s.owner1 ∧ s'.owner2 = s.owner2 ∧
      s'.issuerIndex = s.issuerIndex ∧ s'.issuerList = s.issuerList ∧
      s'.revokerIndex = s.revokerIndex ∧ s'.revokerList = s.revokerList ∧
      (∀ v, v ≠ u → s'.userDocuments v = s.userDocuments v)) ∧
    (∀ a u hsh ev, revokeDocument s a u hsh = .ok (s', ev) →
      s'.initialized = s.initialized ∧ s'.owner0 = s.owner0 ∧
      s'.owner1 = s.owner1 ∧ s'.owner2 = s.owner2 ∧
      s'.issuerIndex = s.issuerIndex ∧ s'.issuerList = s.issuerList ∧
      s'.revokerIndex = s.revokerIndex ∧ s'.revokerList = s.revokerList ∧
      (∀ v, v ≠ u → s'.userDocuments v = s.userDocuments v)) ∧
    (∀ a b ev, addAuthorizedIssuer s a b = .ok (s', ev) →
      s'.initialized = s.initialized ∧ s'.owner0 = s.owner0 ∧
      s'.owner1 = s.owner1 ∧ s'.owner2 = s.owner2 ∧
      s'.revokerIndex = s.revokerIndex ∧ s'.revokerList = s.revokerList ∧
      s'.userDocuments = s.userDocuments ∧ s'.busy = s.busy) ∧
    (∀ a b ev, removeAuthorizedIssuer s a b = .ok (s', ev) →
      s'.initialized = s.initialized ∧ s'.owner0 = s.owner0 ∧
      s'.owner1 = s.owner1 ∧ s'.owner2 = s.owner2 ∧
      s'.revokerIndex = s.revokerIndex ∧ s'.revokerList = s.revokerList ∧
      s'.userDocuments = s.userDocuments ∧ s'.busy = s.busy) ∧
    (∀ a b ev, addAuthorizedRevoker s a b = .ok (s', ev) →
      s'.initialized = s.initialized ∧ s'.owner0 = s.owner0 ∧
      s'.owner1 = s.owner1 ∧ s'.owner2 = s.owner2 ∧
      s'.issuerIndex = s.issuerIndex ∧ s'.issuerList = s.issuerList ∧
      s'.userDocuments = s.userDocuments ∧ s'.busy = s.busy) ∧
    (∀ a b ev, removeAuthorizedRevoker s a b = .ok (s', ev) →
      s'.initialized = s.initialized ∧ s'.owner0 = s.owner0 ∧
      s'.owner1 = s.owner1 ∧ s'.owner2 = s.owner2 ∧
      s'.issuerIndex = s.issuerIndex ∧ s'.issuerList = s.issuerList ∧
      s'.userDocuments = s.userDocuments ∧ s'.busy = s.busy) := by
  refine ⟨?_, ?_, ?_, ?_, ?_, ?_⟩
  · intro a u hsh ref ev hok
    obtain ⟨hb, -, -, hs, -⟩ := (storeDocument_ok_iff s s' a u hsh ref ev).mp hok
    subst hs
    refine ⟨rfl, rfl, rfl, rfl, rfl, rfl, rfl, rfl, ?_⟩
    intro v hv
    simp [hv]
  · intro a u hsh ev hok
    obtain ⟨hb, -, hcase⟩ := (revokeDocument_ok_iff s s' a u hsh ev).mp hok
    rcases hcase with ⟨-, hs, -⟩ | ⟨i, -, hs, -⟩ <;> subst hs
    · exact ⟨rfl, rfl, rfl, rfl, rfl, rfl, rfl, rfl, fun v _ => rfl⟩
    · refine ⟨rfl, rfl, rfl, rfl, rfl, rfl, rfl, rfl, ?_⟩
      intro v hv
      simp [hv]
  · intro a b ev hok
    obtain ⟨-, -, -, hs, -⟩ := (addAuthorizedIssuer_ok_iff s s' a b ev).mp hok
    subst hs
    exact ⟨rfl, rfl, rfl, rfl, rfl, rfl, rfl, rfl⟩
  · intro a b ev hok
    obtain ⟨-, -, -, hcase⟩ := (removeAuthorizedIssuer_ok_iff s s' a b ev).mp hok
    rcases hcase with ⟨-, hs⟩ | ⟨-, hs⟩ <;> subst hs <;>
      exact ⟨rfl, rfl, rfl, rfl, rfl, rfl, rfl, rfl⟩
  · intro a b ev hok
    obtain ⟨-, -, -, hs, -⟩ := (addAuthorizedRevoker_ok_iff s s' a b ev).mp hok
    subst hs
    exact ⟨rfl, rfl, rfl, rfl, rfl, rfl, rfl, rfl⟩
  · intro a b ev hok
    obtain ⟨-, -, -, hcase⟩ := (removeAuthorizedRevoker_ok_iff s s' a b ev).mp hok
    rcases hcase with ⟨-, hs⟩ | ⟨-, hs⟩ <;> subst hs <;>
      exact ⟨rfl, rfl, rfl, rfl, rfl, rfl, rfl, rfl⟩

theorem c10_frame_effects_witness :
    wS1.initialized = wS0.initialized ∧ wS1.owner0 = wS0.owner0 ∧
    wS1.owner1 = wS0.owner1 ∧ wS1.owner2 = wS0.owner2 ∧
    wS1.issuerIndex = wS0.issuerIndex ∧ wS1.issuerList = wS0.issuerList ∧
    wS1.revokerIndex = wS0.revokerIndex ∧ wS1.revokerList = wS0.revokerList ∧
    (∀ v, v ≠ 42 → wS1.userDocuments v = wS0.userDocuments v) :=
  (c10_frame_effects wS0 wS1).1 1 42 7 "cid" [.DocumentStored 42 7 "cid"] rfl

/-- C7: for an authorized caller in a reachable state, `revokeDocument` on a
hash with no matching record succeeds as a no-op (same state, no events);
when a record matches, the call succeeds emitting exactly one `DocumentRevoked`
event carrying the matched record's hash and reference, the record is removed
(no record with that hash remains), the count drops by one, and other
subjects' collections are untouched. -/
theorem c7_revoke_miss_noop (s : CState) (hreach : Reachable s) (a : Address)
    (u : Subject) (hsh : Hash)
    (hauth : isRevoker s a = true ∨ isOwner s a = true) :
    ((∀ d ∈ s.userDocuments u, d.sha256Hash ≠ hsh) →
      revokeDocument s a u hsh = .ok (s, [])) ∧
    (∀ d ∈ s.userDocuments u, d.sha256Hash = hsh →
      ∃ s', revokeDocument s a u hsh =
          .ok (s', [.DocumentRevoked u d.sha256Hash d.ipfsCID]) ∧
        getDocumentCount s' u + 1 = getDocumentCount s u ∧
        (∀ d' ∈ s'.userDocuments u, d'.sha256Hash ≠ hsh) ∧
        (∀ v, v ≠ u → s'.userDocuments v = s.userDocuments v)) := by
  obtain ⟨-, -, hdocs, hbusy⟩ := invariant_reachable hreach
  have hauth' : s.revokerIndex a > 0 ∨ a = s.owner0 ∨ a = s.owner1 ∨ a = s.owner2 := by
    rcases hauth with h | h
    · left
      simpa [isRevoker] using h
    · right
      have h2 : (a = s.owner0 ∨ a = s.owner1) ∨ a = s.owner2 := by
        simpa [isOwner] using h
      tauto
  constructor
  · intro hnone
    refine (revokeDocument_ok_iff s s a u hsh []).mpr ⟨hbusy, hauth', Or.inl ⟨?_, rfl, rfl⟩⟩
    refine List.findIdx?_eq_none_iff.mpr ?_
    intro d hd
    simp [hnone d hd]
  · intro d hd hdh
    obtain ⟨j, hj⟩ := List.mem_iff_getElem?.mp hd
    have hjlen : j < (s.userDocuments u).length := lt_length_of_getElem?_some hj
    have hjget : (s.userDocuments u)[j] = d := by
      rw [List.getElem?_eq_getElem hjlen] at hj
      exact Option.some.inj hj
    -- the scan finds some index
    have hexists : ¬ (s.userDocuments u).findIdx? (fun d => d.sha256Hash == hsh) = none := by
      intro hnone
      have := List.findIdx?_eq_none_iff.mp hnone d hd
      simp [hdh] at this
    obtain ⟨i, hfind⟩ :
        ∃ i, (s.userDocuments u).findIdx? (fun d => d.sha256Hash == hsh) = some i := by
      cases hcase : (s.userDocuments u).findIdx? (fun d => d.sha256Hash == hsh) with
      | none => exact absurd hcase hexists
      | some i => exact ⟨i, rfl⟩
    obtain ⟨hilen, hpi, -⟩ := List.findIdx?_eq_some_iff_getElem.mp hfind
    -- with per-hash uniqueness, the found index is exactly d's slot
    have hieq : i = j := by
      have hmap := hdocs u
      have hi' : i < ((s.userDocuments u).map Document.sha256Hash).length := by
        simpa using hilen
      have hj' : j < ((s.userDocuments u).map Document.sha256Hash).length := by
        simpa using hjlen
      have heq : (List.map Document.sha256Hash (s.userDocuments u))[i] =
          (List.map Document.sha256Hash (s.userDocuments u))[j] := by
        simp only [List.getElem_map, hjget, hdh]
        simpa using hpi
      exact (List.Nodup.getElem_inj_iff hmap).mp heq
    have hgetDi : (s.userDocuments u).getD i default = d := by
      rw [List.getD_eq_getElem?_getD, hieq, hj]
      rfl
    refine ⟨{ s with userDocuments := fun v =>
        if v = u then swapRemove (s.userDocuments u) i else s.userDocuments v }, ?_, ?_, ?_, ?_⟩
    · exact (revokeDocument_ok_iff s _ a u hsh _).mpr
        ⟨hbusy, hauth', Or.inr ⟨i, hfind, rfl, by rw [hgetDi]⟩⟩
    · have hlen : (swapRemove (s.userDocuments u) i).length + 1 =
          (s.userDocuments u).length := by
        rw [swapRemove, List.length_dropLast, List.length_set]
        omega
      simpa [getDocumentCount] using hlen
    · intro d' hd'
      have hd'mem : d'.sha256Hash ∈
          ((swapRemove (s.userDocuments u) i).map Document.sha256Hash) := by
        have : d' ∈ swapRemove (s.userDocuments u) i := by simpa using hd'
        exact List.mem_map_of_mem Document.sha256Hash this
      have hperm := (swapRemove_perm_eraseIdx (s.userDocuments u) i hilen).map
        Document.sha256Hash
      have hmem2 : d'.sha256Hash ∈
          ((s.userDocuments u).eraseIdx i).map Document.sha256Hash :=
        hperm.mem_iff.mp hd'mem
      rw [map_eraseIdx_eq] at hmem2
      intro hcontra
      have hnotmem := not_mem_eraseIdx_of_nodup
        ((s.userDocuments u).map Document.sha256Hash) i (hdocs u) (by simpa using hilen)
      apply hnotmem
      have hi2 : i < ((s.userDocuments u).map Document.sha256Hash).length := by
        simpa using hilen
      have hgeti : ((s.userDocuments u).map Document.sha256Hash)[i] = hsh := by
        simp only [List.getElem_map]
        simpa using hpi
      rw [hgeti]
      rw [hcontra] at hmem2
      exact hmem2
    · intro v hv
      simp [hv]

theorem reachable_wS0 : Reachable wS0 :=
  Relation.ReflTransGen.tail Relation.ReflTransGen.refl
    (Step.init initialState wS0 1 true 2 3 [] rfl)

theorem reachable_wS1 : Reachable wS1 :=
  Relation.ReflTransGen.tail reachable_wS0
    (Step.store wS0 wS1 1 42 7 "cid" [.DocumentStored 42 7 "cid"] rfl)

theorem c7_revoke_miss_noop_witness :
    ((∀ d ∈ wS1.userDocuments 42, d.sha256Hash ≠ 7) →
      revokeDocument wS1 1 42 7 = .ok (wS1, [])) ∧
    (∀ d ∈ wS1.userDocuments 42, d.sha256Hash = 7 →
      ∃ s', revokeDocument wS1 1 42 7 =
          .ok (s', [.DocumentRevoked 42 d.sha256Hash d.ipfsCID]) ∧
        getDocumentCount s' 42 + 1 = getDocumentCount wS1 42 ∧
        (∀ d' ∈ s'.userDocuments 42, d'.sha256Hash ≠ 7) ∧
        (∀ v, v ≠ 42 → s'.userDocuments v = wS1.userDocuments v)) :=
  c7_revoke_miss_noop wS1 reachable_wS1 1 42 7 (Or.inr rfl)

theorem authInv_remove_swap_mem {idx : Address → Nat} {list : List Address}
    (h : AuthInv idx list) (b x : Address) (hb : idx b ≠ 0) :
    ((if x = b then 0
      else if x = list.getD (list.length - 1) 0 then idx b - 1 + 1
      else idx x) ≠ 0) ↔ (idx x ≠ 0 ∧ x ≠ b) := by
  have hbpos := h.1 b hb
  have hblen := lt_length_of_getElem?_some hbpos
  have hlen1 : list.length - 1 < list.length := by omega
  have hmovedElem : list[list.length - 1]? =
      some (list.getD (list.length - 1) 0) := by
    rw [List.getD_eq_getElem?_getD, List.getElem?_eq_getElem hlen1]
    rfl
  have hidxmoved := h.2 _ _ hmovedElem
  by_cases hxb : x = b
  · simp [hxb]
  · rw [if_neg hxb]
    by_cases hxm : x = list.getD (list.length - 1) 0
    · rw [if_pos hxm]
      constructor
      · intro _
        refine ⟨?_, hxb⟩
        rw [hxm, hidxmoved]
        omega
      · intro _
        omega
    · rw [if_neg hxm]
      tauto

theorem authInv_remove_last_mem {idx : Address → Nat} (b x : Address) :
    ((if x = b then 0 else idx x) ≠ 0) ↔ (idx x ≠ 0 ∧ x ≠ b) := by
  by_cases hxb : x = b
  · simp [hxb]
  · rw [if_neg hxb]
    tauto

/-- C4: for an owner caller in a reachable state, removing a present address
from an authorization list succeeds as a swap-remove — the list shrinks by
one, reads (as a set) as the prior members minus the address, the removed
address's index entry is cleared, and every remaining member still passes the
membership test — while removing an absent address fails with
`NotAuthorized`; both for the issuer and for the revoker list. -/
theorem c4_swap_remove_correct (s : CState) (hreach : Reachable s)
    (sender addr : Address) (hown : isOwner s sender = true) :
    (addr ∈ s.issuerList →
      ∃ s' ev, removeAuthorizedIssuer s sender addr = .ok (s', ev) ∧
        s'.issuerList.length + 1 = s.issuerList.length ∧
        (∀ x, x ∈ s'.issuerList ↔ (x ∈ s.issuerList ∧ x ≠ addr)) ∧
        (∀ m ∈ s'.issuerList, isIssuer s' m = true) ∧
        s'.issuerIndex addr = 0) ∧
    (addr ∉ s.issuerList →
      removeAuthorizedIssuer s sender addr = .error .NotAuthorized) ∧
    (addr ∈ s.revokerList →
      ∃ s' ev, removeAuthorizedRevoker s sender addr = .ok (s', ev) ∧
        s'.revokerList.length + 1 = s.revokerList.length ∧
        (∀ x, x ∈ s'.revokerList ↔ (x ∈ s.revokerList ∧ x ≠ addr)) ∧
        (∀ m ∈ s'.revokerList, isRevoker s' m = true) ∧
        s'.revokerIndex addr = 0) ∧
    (addr ∉ s.revokerList →
      removeAuthorizedRevoker s sender addr = .error .NotAuthorized) := by
  obtain ⟨hissInv, hrevInv, -, -⟩ := invariant_reachable hreach
  refine ⟨?_, ?_, ?_, ?_⟩
  · -- present: issuer
    intro hmem
    have hb : s.issuerIndex addr ≠ 0 := (authInv_mem_iff hissInv addr).mp hmem
    by_cases hlast : s.issuerIndex addr - 1 ≠ s.issuerList.length - 1
    · refine ⟨{ s with
          issuerList := (s.issuerList.set (s.issuerIndex addr - 1)
            (s.issuerList.getD (s.issuerList.length - 1) 0)).dropLast,
          issuerIndex := fun x =>
            if x = addr then 0
            else if x = s.issuerList.getD (s.issuerList.length - 1) 0 then
              s.issuerIndex addr - 1 + 1
            else s.issuerIndex x }, [.IssuerRemoved addr], ?_, ?_, ?_, ?_, ?_⟩
      · exact (removeAuthorizedIssuer_ok_iff s _ sender addr _).mpr
          ⟨hown, by omega, rfl, Or.inl ⟨hlast, rfl⟩⟩
      · show ((s.issuerList.set (s.issuerIndex addr - 1)
            (s.issuerList.getD (s.issuerList.length - 1) 0)).dropLast).length + 1 =
          s.issuerList.length
        rw [List.length_dropLast, List.length_set]
        have := lt_length_of_getElem?_some (hissInv.1 addr hb)
        omega
      · intro x
        have hissInv2 := authInv_remove_swap addr hissInv hb hlast
        rw [authInv_mem_iff hissInv2 x, authInv_remove_swap_mem hissInv addr x hb,
          authInv_mem_iff hissInv x]
      · intro m hm
        have hissInv2 := authInv_remove_swap addr hissInv hb hlast
        have := (authInv_mem_iff hissInv2 m).mp hm
        simp only [isIssuer, decide_eq_true_eq]
        omega
      · simp
    · push_neg at hlast
      refine ⟨{ s with
          issuerList := s.issuerList.dropLast,
          issuerIndex := fun x => if x = addr then 0 else s.issuerIndex x },
          [.IssuerRemoved addr], ?_, ?_, ?_, ?_, ?_⟩
      · exact (removeAuthorizedIssuer_ok_iff s _ sender addr _).mpr
          ⟨hown, by omega, rfl, Or.inr ⟨hlast, rfl⟩⟩
      · show (s.issuerList.dropLast).length + 1 = s.issuerList.length
        rw [List.length_dropLast]
        have := lt_length_of_getElem?_some (hissInv.1 addr hb)
        omega
      · intro x
        have hissInv2 := authInv_remove_last addr hissInv hb hlast
        rw [authInv_mem_iff hissInv2 x, authInv_remove_last_mem addr x,
          authInv_mem_iff hissInv x]
      · intro m hm
        have hissInv2 := authInv_remove_last addr hissInv hb hlast
        have := (authInv_mem_iff hissInv2 m).mp hm
        simp only [isIssuer, decide_eq_true_eq]
        omega
      · simp
  · -- absent: issuer
    intro hnotmem
    have hb : s.issuerIndex addr = 0 := by
      by_contra hb
      exact hnotmem ((authInv_mem_iff hissInv addr).mpr hb)
    simp only [removeAuthorizedIssuer]
    rw [if_pos hown, if_neg (by omega)]
  · -- present: revoker
    intro hmem
    have hb : s.revokerIndex addr ≠ 0 := (authInv_mem_iff hrevInv addr).mp hmem
    by_cases hlast : s.revokerIndex addr - 1 ≠ s.revokerList.length - 1
    · refine ⟨{ s with
          revokerList := (s.revokerList.set (s.revokerIndex addr - 1)
            (s.revokerList.getD (s.revokerList.length - 1) 0)).dropLast,
          revokerIndex := fun x =>
            if x = addr then 0
            else if x = s.revokerList.getD (s.revokerList.length - 1) 0 then
              s.revokerIndex addr - 1 + 1
            else s.revokerIndex x }, [.RevokerRemoved addr], ?_, ?_, ?_, ?_, ?_⟩
      · exact (removeAuthorizedRevoker_ok_iff s _ sender addr _).mpr
          ⟨hown, by omega, rfl, Or.inl ⟨hlast, rfl⟩⟩
      · show ((s.revokerList.set (s.revokerIndex addr - 1)
            (s.revokerList.getD (s.revokerList.length - 1) 0)).dropLast).length + 1 =
          s.revokerList.length
        rw [List.length_dropLast, List.length_set]
        have := lt_length_of_getElem?_some (hrevInv.1 addr hb)
        omega
      · intro x
        have hrevInv2 := authInv_remove_swap addr hrevInv hb hlast
        rw [authInv_mem_iff hrevInv2 x, authInv_remove_swap_mem hrevInv addr x hb,
          authInv_mem_iff hrevInv x]
      · intro m hm
        have hrevInv2 := authInv_remove_swap addr hrevInv hb hlast
        have := (authInv_mem_iff hrevInv2 m).mp hm
        simp only [isRevoker, decide_eq_true_eq]
        omega
      · simp
    · push_neg at hlast
      refine ⟨{ s with
          revokerList := s.revokerList.dropLast,
          revokerIndex := fun x => if x = addr then 0 else s.revokerIndex x },
          [.RevokerRemoved addr], ?_, ?_, ?_, ?_, ?_⟩
      · exact (removeAuthorizedRevoker_ok_iff s _ sender addr _).mpr
          ⟨hown, by omega, rfl, Or.inr ⟨hlast, rfl⟩⟩
      · show (s.revokerList.dropLast).length + 1 = s.revokerList.length
        rw [List.length_dropLast]
        have := lt_length_of_getElem?_some (hrevInv.1 addr hb)
        omega
      · intro x
        have hrevInv2 := authInv_remove_last addr hrevInv hb hlast
        rw [authInv_mem_iff hrevInv2 x, authInv_remove_last_mem addr x,
          authInv_mem_iff hrevInv x]
      · intro m hm
        have hrevInv2 := authInv_remove_last addr hrevInv hb hlast
        have := (authInv_mem_iff hrevInv2 m).mp hm
        simp only [isRevoker, decide_eq_true_eq]
        omega
      · simp
  · -- absent: revoker
    intro hnotmem
    have hb : s.revokerIndex addr = 0 := by
      by_contra hb
      exact hnotmem ((authInv_mem_iff hrevInv addr).mpr hb)
    simp only [removeAuthorizedRevoker]
    rw [if_pos hown, if_neg (by omega)]

/-- `wS0` after owner 1 authorizes issuer 10. -/
def wA1 : CState :=
  { wS0 with
    issuerIndex := fun a =>
      if a = 10 then wS0.issuerList.length + 1 else wS0.issuerIndex a,
    issuerList := wS0.issuerList ++ [10] }

/-- `wA1` after owner 1 authorizes issuer 11. -/
def wA2 : CState :=
  { wA1 with
    issuerIndex := fun a =>
      if a = 11 then wA1.issuerList.length + 1 else wA1.issuerIndex a,
    issuerList := wA1.issuerList ++ [11] }

/-- `wA2` after owner 1 authorizes issuer 12. -/
def wA3 : CState :=
  { wA2 with
    issuerIndex := fun a =>
      if a = 12 then wA2.issuerList.length + 1 else wA2.issuerIndex a,
    issuerList := wA2.issuerList ++ [12] }

theorem reachable_wA3 : Reachable wA3 :=
  Relation.ReflTransGen.tail
    (Relation.ReflTransGen.tail
      (Relation.ReflTransGen.tail reachable_wS0
        (Step.addIssuer wS0 wA1 1 10 [.IssuerAdded 10] rfl))
      (Step.addIssuer wA1 wA2 1 11 [.IssuerAdded 11] rfl))
    (Step.addIssuer wA2 wA3 1 12 [.IssuerAdded 12] rfl)

theorem c4_swap_remove_correct_witness :
    ((11 : Address) ∈ wA3.issuerList →
      ∃ s' ev, removeAuthorizedIssuer wA3 1 11 = .ok (s', ev) ∧
        s'.issuerList.length + 1 = wA3.issuerList.length ∧
        (∀ x, x ∈ s'.issuerList ↔ (x ∈ wA3.issuerList ∧ x ≠ 11)) ∧
        (∀ m ∈ s'.issuerList, isIssuer s' m = true) ∧
        s'.issuerIndex 11 = 0) ∧
    ((11 : Address) ∉ wA3.issuerList →
      removeAuthorizedIssuer wA3 1 11 = .error .NotAuthorized) ∧
    ((11 : Address) ∈ wA3.revokerList →
      ∃ s' ev, removeAuthorizedRevoker wA3 1 11 = .ok (s', ev) ∧
        s'.revokerList.length + 1 = wA3.revokerList.length ∧
        (∀ x, x ∈ s'.revokerList ↔ (x ∈ wA3.revokerList ∧ x ≠ 11)) ∧
        (∀ m ∈ s'.revokerList, isRevoker s' m = true) ∧
        s'.revokerIndex 11 = 0) ∧
    ((11 : Address) ∉ wA3.revokerList →
      removeAuthorizedRevoker wA3 1 11 = .error .NotAuthorized) :=
  c4_swap_remove_correct wA3 reachable_wA3 1 11 rfl

/-- The state produced by initializing with caller 5 and both supplied owner
addresses also 5. -/
def ownersAllSame : CState :=
  { initialState with initialized := true, owner0 := 5, owner1 := 5, owner2 := 5 }

/-- C8 counterexample: `initialize` never checks distinctness — a direct call
with `_owner2` and `_owner3` equal to the caller's own address succeeds, and
the resulting owner array holds one distinct address three times, refuting
"exactly 3 distinct account addresses". -/
theorem c8_distinctness_counterexample :
    initializeContract initialState 5 true 5 5 = .ok (ownersAllSame, []) ∧
    ownersAllSame.owner0 = ownersAllSame.owner1 ∧
    ownersAllSame.owner1 = ownersAllSame.owner2 :=
  ⟨rfl, rfl, rfl⟩

theorem step_preserves_owners {t t' : CState} (hini : t.initialized = true)
    (h : Step t t') :
    t'.owner0 = t.owner0 ∧ t'.owner1 = t.owner1 ∧ t'.owner2 = t.owner2 ∧
    t'.initialized = true := by
  cases h with
  | init sender direct o2 o3 evs h =>
    obtain ⟨hfalse, -, -, -⟩ :=
      (initializeContract_ok_iff t t' sender direct o2 o3 evs).mp h
    rw [hini] at hfalse
    cases hfalse
  | addIssuer sender issuer evs h =>
    obtain ⟨-, -, -, hs, -⟩ := (addAuthorizedIssuer_ok_iff t t' sender issuer evs).mp h
    subst hs
    exact ⟨rfl, rfl, rfl, hini⟩
  | removeIssuer sender issuer evs h =>
    obtain ⟨-, -, -, hcase⟩ :=
      (removeAuthorizedIssuer_ok_iff t t' sender issuer evs).mp h
    rcases hcase with ⟨-, hs⟩ | ⟨-, hs⟩ <;> subst hs <;> exact ⟨rfl, rfl, rfl, hini⟩
  | addRevoker sender revoker evs h =>
    obtain ⟨-, -, -, hs, -⟩ := (addAuthorizedRevoker_ok_iff t t' sender revoker evs).mp h
    subst hs
    exact ⟨rfl, rfl, rfl, hini⟩
  | removeRevoker sender revoker evs h =>
    obtain ⟨-, -, -, hcase⟩ :=
      (removeAuthorizedRevoker_ok_iff t t' sender revoker evs).mp h
    rcases hcase with ⟨-, hs⟩ | ⟨-, hs⟩ <;> subst hs <;> exact ⟨rfl, rfl, rfl, hini⟩
  | store sender userId sha256Hash ipfsCID evs h =>
    obtain ⟨-, -, -, hs, -⟩ :=
      (storeDocument_ok_iff t t' sender userId sha256Hash ipfsCID evs).mp h
    subst hs
    exact ⟨rfl, rfl, rfl, hini⟩
  | revoke sender userId sha256Hash evs h =>
    obtain ⟨-, -, hcase⟩ := (revokeDocument_ok_iff t t' sender userId sha256Hash evs).mp h
    rcases hcase with ⟨-, hs, -⟩ | ⟨i, -, hs, -⟩ <;> subst hs
    · exact ⟨rfl, rfl, rfl, hini⟩
    · exact ⟨rfl, rfl, rfl, hini⟩

theorem owners_fixed_chain {t t' : CState} (h : Relation.ReflTransGen Step t t')
    (hini : t.initialized = true) :
    t'.owner0 = t.owner0 ∧ t'.owner1 = t.owner1 ∧ t'.owner2 = t.owner2 ∧
    t'.initialized = true := by
  induction h with
  | refl => exact ⟨rfl, rfl, rfl, hini⟩
  | tail hsteps hstep ih =>
    obtain ⟨h0, h1, h2, h3⟩ := ih
    obtain ⟨g0, g1, g2, g3⟩ := step_preserves_owners h3 hstep
    exact ⟨g0.trans h0, g1.trans h1, g2.trans h2, g3⟩

/-- C8 (amended): the owner set consists of the 3 addresses fixed by the
one-time `initialize` call — the caller plus the two supplied addresses,
distinctness NOT being enforced; `initialize` fails with `AlreadyInitialized`
when called again, and no later operation ever changes the owner slots. -/
theorem c8_owner_set_fixed_at_initialization (s s' : CState) (sender : Address)
    (direct : Bool) (o2 o3 : Address) (ev : List Event)
    (hok : initializeContract s sender direct o2 o3 = .ok (s', ev)) :
    s'.owner0 = sender ∧ s'.owner1 = o2 ∧ s'.owner2 = o3 ∧
    s'.initialized = true ∧
    (∀ sender' direct' o2' o3',
      initializeContract s' sender' direct' o2' o3' = .error .AlreadyInitialized) ∧
    (∀ t, Relation.ReflTransGen Step s' t →
      t.owner0 = sender ∧ t.owner1 = o2 ∧ t.owner2 = o3) := by
  obtain ⟨-, -, hs, -⟩ := (initializeContract_ok_iff s s' sender direct o2 o3 ev).mp hok
  subst hs
  refine ⟨rfl, rfl, rfl, rfl, ?_, ?_⟩
  · intro sender' direct' o2' o3'
    simp [initializeContract]
  · intro t ht
    obtain ⟨h0, h1, h2, -⟩ := owners_fixed_chain ht rfl
    exact ⟨h0, h1, h2⟩

theorem c8_owner_set_fixed_witness :
    wS0.owner0 = 1 ∧ wS0.owner1 = 2 ∧ wS0.owner2 = 3 ∧
    wS0.initialized = true ∧
    (∀ sender' direct' o2' o3',
      initializeContract wS0 sender' direct' o2' o3' = .error .AlreadyInitialized) ∧
    (∀ t, Relation.ReflTransGen Step wS0 t →
      t.owner0 = 1 ∧ t.owner1 = 2 ∧ t.owner2 = 3) :=
  c8_owner_set_fixed_at_initialization initialState wS0 1 true 2 3 [] rfl
